import Mathlib

/-!
Verification model of `src/tools/classes/PresenceCompiler.ts`.

The TypeScript class `PresenceCompiler` orchestrates the compilation of
"presence" units: for each unit it resolves the unit's directory, writes an
ephemeral `tsconfig.json`, installs dependencies when a `package.json` is
present, invokes the webpack bundler, and collects diagnostics.  This file is
a shallow embedding of that orchestrator:

* the filesystem is a map from paths to existence flags (`FS`); the
  orchestrator only ever checks existence of, writes, and removes files;
* the bundler (webpack) and the dependency installer (`npm install` via
  `execSync`) are external collaborators, modelled as oracles in `Env`:
  `Env.bundler` maps the configuration the orchestrator passes to webpack to
  the `(error, stats)` pair delivered by webpack's completion callback, and
  `Env.installOk` tells whether `npm install` exits zero in a given folder;
* `actions.info` reporting is modelled by accumulating the reported message
  strings (chalk colouring is presentation only and is dropped);
* the mutation of the caller-supplied `options` object (the source mutates it
  in place) is modelled by returning the final options value in the outcome;
* `this.options?.webpack` (constructor-level webpack overrides) is modelled
  as absent, i.e. a compiler constructed without overrides: every claim under
  consideration quantifies only over the `compilePresence` arguments.

Path resolution joins segments with "/" (modelling `node:path.resolve` on the
relative segments the source uses).  `getFolderLetter` lives in
`src/tools/util/getFolderLetter.ts`, which is not part of the sources under
review; it is an arbitrary pure function of the presence name, kept abstract
as the `folderLetter` field of `Compiler`.
-/

/-- `basename` from `node:path`, restricted to "/"-separated paths: the last
path segment. -/
def basename (path : String) : String :=
  (path.splitOn "/").getLastD path

/-- JavaScript truthiness test of `options.output` in `if (!options.output)`:
an absent value and the empty string are falsy. -/
def jsFalsyStr : Option String → Bool
  | none => true
  | some s => s.isEmpty

/-- The exported `tsconfig` constant: `JSON.stringify({ extends:
"../../../tsconfig.json" })`. -/
def tsconfig : String := "\x7b\"extends\":\"../../../tsconfig.json\"\x7d"

/-- One webpack diagnostic (`webpack.WebpackError`): its `name` tag (e.g.
`"ModuleBuildError"`), message, and originating location. -/
structure Diagnostic where
  name : String
  message : String
  file : String
  line : Nat
  column : Nat
  deriving DecidableEq, Repr

/-- The `(error, stats)` pair delivered by webpack's completion callback:
`error` is the fatal invocation error (if any) and `stats` carries the
diagnostic list `stats.compilation.errors` (absent when `stats` is
`undefined`). -/
structure BundlerResult where
  error : Option String
  stats : Option (List Diagnostic)
  deriving DecidableEq, Repr

/-- The part of the webpack configuration the orchestrator computes and the
claims talk about: the `context` directory, the `output` section (`none` when
`emit` is off; otherwise `some path` where `path` is the configured
`output.path`, itself optional because the source can leave it `undefined`),
the `entry` mapping in insertion order, and ts-loader's `transpileOnly`. -/
structure BundlerInput where
  context : String
  output : Option (Option String)
  entries : List (String × String)
  transpileOnly : Bool
  deriving DecidableEq, Repr

/-- The filesystem, as far as the orchestrator observes it: which paths
exist.  (`existsSync`, `writeFileSync`, `rmSync`.) -/
structure FS where
  present : String → Bool

/-- `writeFileSync path`: afterwards `path` exists. -/
def FS.write (fs : FS) (path : String) : FS :=
  ⟨fun q => if q = path then true else fs.present q⟩

/-- `rmSync path`: afterwards `path` does not exist. -/
def FS.remove (fs : FS) (path : String) : FS :=
  ⟨fun q => if q = path then false else fs.present q⟩

/-- The external collaborators: the webpack bundler as a deterministic oracle
from the configuration the orchestrator builds to the completion-callback
pair, and the dependency installer as an exit-status oracle per folder. -/
structure Env where
  bundler : BundlerInput → BundlerResult
  installOk : String → Bool

/-- The two fatal (thrown) error kinds of `compilePresence`: a non-zero exit
of `npm install` (thrown by `execSync`) and a fatal webpack invocation
error (`job.error` / `job.err`). -/
inductive CompileError where
  | installFailed (folder : String)
  | bundlerError (message : String)
  deriving DecidableEq, Repr

/-- The `options` parameter of `compilePresence`.  All three fields are
optional in the source; `none` models an absent (`undefined`) field. -/
structure Options where
  output : Option String := none
  transpileOnly : Option Bool := none
  emit : Option Bool := none
  deriving DecidableEq, Repr

instance {α β : Type} [DecidableEq α] [DecidableEq β] : DecidableEq (Except α β) :=
  fun a b =>
    match a, b with
    | Except.ok x, Except.ok y =>
      match decEq x y with
      | isTrue h => isTrue (by rw [h])
      | isFalse h => isFalse (by intro he; cases he; exact h rfl)
    | Except.error x, Except.error y =>
      match decEq x y with
      | isTrue h => isTrue (by rw [h])
      | isFalse h => isFalse (by intro he; cases he; exact h rfl)
    | Except.ok x, Except.error y => isFalse (by intro he; cases he)
    | Except.error x, Except.ok y => isFalse (by intro he; cases he)

/-- The compiler object: `cwd` from the constructor (defaulted to the
repository root) and the external `getFolderLetter` helper. -/
structure Compiler where
  cwd : String
  folderLetter : String → String

/-- `getPresenceFolder`: `resolve(this.cwd, "websites",
getFolderLetter(presence), presence)`. -/
def Compiler.getPresenceFolder (c : Compiler) (presence : String) : String :=
  c.cwd ++ "/websites/" ++ c.folderLetter presence ++ "/" ++ presence

/-- Outcome of `installPresenceDependencies`: thrown error or unit, the
reported messages, and the folders in which the installer process was
actually invoked. -/
structure InstallOutcome where
  result : Except CompileError Unit
  reports : List String
  calls : List String
  deriving Repr

/-- `installPresenceDependencies`: return early when no `package.json`
exists in the unit's folder; otherwise report, then run `npm install` there,
`execSync` throwing on non-zero exit. -/
def Compiler.installPresenceDependencies (c : Compiler) (env : Env) (fs : FS)
    (presence : String) : InstallOutcome :=
  let folder := c.getPresenceFolder presence
  if fs.present (folder ++ "/package.json") then
    if env.installOk folder then
      ⟨Except.ok (), ["Installing dependencies for " ++ basename folder], [folder]⟩
    else
      ⟨Except.error (CompileError.installFailed folder),
        ["Installing dependencies for " ++ basename folder], [folder]⟩
  else ⟨Except.ok (), [], []⟩

/-- The wrapper-error filter both branches apply to the diagnostic list:
`errors.filter(e => e.name !== "ModuleBuildError")`. -/
def filterModuleBuildErrors (ds : List Diagnostic) : List Diagnostic :=
  ds.filter fun e => !(e.name == "ModuleBuildError")

/-- `!job.stats?.compilation.errors.length` of the single branch: `true` when
`stats` is absent (the optional chain yields `undefined`) or the raw
diagnostic list is empty. -/
def rawEmptyOf : Option (List Diagnostic) → Bool
  | none => true
  | some ds => ds.isEmpty

/-- The entry mapping both branches build: always `presence: "./presence.ts"`,
plus `iframe: "./iframe.ts"` iff `iframe.ts` exists in the unit's folder at
that moment. -/
def entriesFor (fs : FS) (presencePath : String) : List (String × String) :=
  ("presence", "./presence.ts") ::
    (if fs.present (presencePath ++ "/iframe.ts") then [("iframe", "./iframe.ts")] else [])

/-- The webpack configuration the batch branch passes for one unit: the
shared config with `context` and `output` overridden per unit (`output.path`
is the unit's own folder when emitting) and the per-unit entry mapping. -/
def batchBundlerInput (cfgEmit cfgT : Bool) (fs : FS) (presencePath : String) :
    BundlerInput :=
  ⟨presencePath, if cfgEmit then some (some presencePath) else none,
    entriesFor fs presencePath, cfgT⟩

/-- The webpack configuration the single branch passes: the shared config
(with the `output` section as captured when `webpackConfig` was built) plus
`context` and the entry mapping. -/
def singleBundlerInput (cfgOutput : Option (Option String)) (cfgT : Bool) (fs : FS)
    (presencePath : String) : BundlerInput :=
  ⟨presencePath, cfgOutput, entriesFor fs presencePath, cfgT⟩

/-- State threaded through the batch `for` loop: accumulated raw diagnostics
(or the thrown error), the filesystem, the reports, and the bundler and
installer invocations in order. -/
structure LoopOut where
  result : Except CompileError (List Diagnostic)
  fs : FS
  reports : List String
  bundlerCalls : List BundlerInput
  installerCalls : List String

/-- The batch branch's `for (const p of presence)` loop: per unit, write the
ephemeral `tsconfig.json`, install dependencies, invoke the bundler, throw on
a fatal invocation error, and accumulate `job.stats?.compilation?.errors ||
[]`. -/
def batchLoop (c : Compiler) (env : Env) (cfgEmit cfgT : Bool) :
    List String → FS → LoopOut
  | [], fs => ⟨Except.ok [], fs, [], [], []⟩
  | p :: rest, fs =>
    let presencePath := c.getPresenceFolder p
    let fs1 := fs.write (presencePath ++ "/tsconfig.json")
    let inst := c.installPresenceDependencies env fs1 p
    match inst.result with
    | Except.error e => ⟨Except.error e, fs1, inst.reports, [], inst.calls⟩
    | Except.ok _ =>
      let input := batchBundlerInput cfgEmit cfgT fs1 presencePath
      let res := env.bundler input
      match res.error with
      | some msg =>
        ⟨Except.error (CompileError.bundlerError msg), fs1, inst.reports, [input],
          inst.calls⟩
      | none =>
        let diags := res.stats.getD []
        let tl := batchLoop c env cfgEmit cfgT rest fs1
        { result :=
            match tl.result with
            | Except.ok ds => Except.ok (diags ++ ds)
            | Except.error e => Except.error e
          fs := tl.fs
          reports := inst.reports ++ tl.reports
          bundlerCalls := input :: tl.bundlerCalls
          installerCalls := inst.calls ++ tl.installerCalls }

/-- The batch branch's cleanup loop: for each unit in order, remove its
`tsconfig.json` if it still exists. -/
def cleanupConfigs (c : Compiler) : List String → FS → FS
  | [], fs => fs
  | p :: rest, fs =>
    let path := c.getPresenceFolder p ++ "/tsconfig.json"
    cleanupConfigs c rest (if fs.present path then fs.remove path else fs)

/-- The success message of the single branch. -/
def singleSuccessMsg (transpileOnly : Bool) (presence : String) : String :=
  if transpileOnly then "Successfully transpiled " ++ presence
  else "Successfully compiled " ++ presence

/-- The aggregate success message of the batch branch. -/
def batchSuccessMsg (transpileOnly : Bool) (n : Nat) : String :=
  if transpileOnly then "Successfully transpiled " ++ toString n ++ " Presence(s)"
  else "Successfully compiled " ++ toString n ++ " Presence(s)"

/-- Outcome of one `compilePresence` call: the returned diagnostic list or
the thrown error, the final filesystem, the reported messages in order, the
bundler and installer invocations in order, and the final contents of the
caller's (mutated) `options` object. -/
structure CompileOutcome where
  result : Except CompileError (List Diagnostic)
  fs : FS
  reports : List String
  bundlerCalls : List BundlerInput
  installerCalls : List String
  finalOptions : Options

/-- The `presence` argument: a single name or a list of names. -/
inductive PresenceArg where
  | single (presence : String)
  | batch (presences : List String)

/-- The batch branch of `compilePresence` (lines 102-163 of the source):
report the batch size, run the loop, on a thrown error propagate it, else
remove every remaining ephemeral config in unit order, drop the
`ModuleBuildError` diagnostics, report aggregate success iff the filtered
list is empty, and return the filtered list. -/
def Compiler.compileBatch (c : Compiler) (env : Env) (fs : FS) (ps : List String)
    (opts1 : Options) (cfgEmit cfgT : Bool) : CompileOutcome :=
  let header := "Compiling " ++ toString ps.length ++ " Presence(s)"
  let lo := batchLoop c env cfgEmit cfgT ps fs
  match lo.result with
  | Except.error e =>
    ⟨Except.error e, lo.fs, header :: lo.reports, lo.bundlerCalls, lo.installerCalls,
      opts1⟩
  | Except.ok raw =>
    let fs2 := cleanupConfigs c ps lo.fs
    let errors := filterModuleBuildErrors raw
    let successReports := if errors.isEmpty then [batchSuccessMsg cfgT ps.length] else []
    ⟨Except.ok errors, fs2, header :: lo.reports ++ successReports, lo.bundlerCalls,
      lo.installerCalls, opts1⟩

/-- The single branch of `compilePresence` (lines 165-208 of the source):
default `options.output` to the unit's folder (after `webpackConfig` has
already captured the original value), write the ephemeral config, install
dependencies, report, invoke the bundler, remove the ephemeral config if
present, then throw any fatal invocation error, report success iff the RAW
(`job.stats?.compilation.errors`) list is empty, and return the list with
`ModuleBuildError` diagnostics dropped (empty when `stats` is absent). -/
def Compiler.compileSingle (c : Compiler) (env : Env) (fs : FS) (p : String)
    (opts1 : Options) (cfgT : Bool) (cfgOutput : Option (Option String)) :
    CompileOutcome :=
  let presencePath := c.getPresenceFolder p
  let opts2 : Options :=
    if jsFalsyStr opts1.output then { opts1 with output := some presencePath } else opts1
  let fs1 := fs.write (presencePath ++ "/tsconfig.json")
  let inst := c.installPresenceDependencies env fs1 p
  match inst.result with
  | Except.error e => ⟨Except.error e, fs1, inst.reports, [], inst.calls, opts2⟩
  | Except.ok _ =>
    let compilingMsg := "Compiling " ++ p ++ "..."
    let input := singleBundlerInput cfgOutput cfgT fs1 presencePath
    let res := env.bundler input
    let tsPath := presencePath ++ "/tsconfig.json"
    let fs2 := if fs1.present tsPath then fs1.remove tsPath else fs1
    match res.error with
    | some msg =>
      ⟨Except.error (CompileError.bundlerError msg), fs2,
        inst.reports ++ [compilingMsg], [input], inst.calls, opts2⟩
    | none =>
      let rawEmpty : Bool := rawEmptyOf res.stats
      let successReports := if rawEmpty then [singleSuccessMsg cfgT p] else []
      let errors := (res.stats.map filterModuleBuildErrors).getD []
      ⟨Except.ok errors, fs2, inst.reports ++ [compilingMsg] ++ successReports,
        [input], inst.calls, opts2⟩

/-- `compilePresence`: default `emit` to `true` and `transpileOnly` to
`false` (in-place on the caller's options), capture the `output` section of
`webpackConfig` from the options as they stand at that point, then dispatch
on whether `presence` is an array. -/
def Compiler.compilePresence (c : Compiler) (env : Env) (fs : FS)
    (presence : PresenceArg) (options : Options) : CompileOutcome :=
  let opts1 : Options :=
    { options with
      emit := some (options.emit.getD true)
      transpileOnly := some (options.transpileOnly.getD false) }
  let cfgEmit : Bool := opts1.emit.getD true
  let cfgT : Bool := opts1.transpileOnly.getD false
  let cfgOutput : Option (Option String) := if cfgEmit then some opts1.output else none
  match presence with
  | PresenceArg.batch ps => c.compileBatch env fs ps opts1 cfgEmit cfgT
  | PresenceArg.single p => c.compileSingle env fs p opts1 cfgT cfgOutput

/-! ## String and path helper lemmas -/

/-- Two "/"-joined paths with suffixes whose last characters differ are
distinct, whatever the folders are. -/
theorem append_ne_of_getLast_ne (a b s t : String) (hs : s.data ≠ [])
    (ht : t.data ≠ []) (h : s.data.getLast? ≠ t.data.getLast?) : a ++ s ≠ b ++ t := by
  intro he
  have hd : (a ++ s).data = (b ++ t).data := by rw [he]
  rw [String.data_append, String.data_append] at hd
  have hlast := congrArg List.getLast? hd
  rw [List.getLast?_append_of_ne_nil _ hs, List.getLast?_append_of_ne_nil _ ht] at hlast
  exact h hlast

/-- A `tsconfig.json` path never coincides with an `iframe.ts` path. -/
theorem tsconfig_ne_iframe (a b : String) : a ++ "/tsconfig.json" ≠ b ++ "/iframe.ts" :=
  append_ne_of_getLast_ne a b _ _ (by decide) (by decide) (by decide)

/-- An `iframe.ts` path never coincides with a `tsconfig.json` path. -/
theorem iframe_ne_tsconfig (a b : String) : a ++ "/iframe.ts" ≠ b ++ "/tsconfig.json" :=
  append_ne_of_getLast_ne a b _ _ (by decide) (by decide) (by decide)

/-- String append is left-cancellative. -/
theorem string_append_left_cancel {a s t : String} (h : a ++ s = a ++ t) : s = t := by
  have hd := congrArg String.data h
  rw [String.data_append, String.data_append] at hd
  exact String.ext (List.append_cancel_left hd)

/-- In one folder, the `package.json` path differs from the `tsconfig.json`
path. -/
theorem package_ne_tsconfig (a : String) :
    a ++ "/package.json" ≠ a ++ "/tsconfig.json" := by
  intro h
  exact absurd (string_append_left_cancel h) (by decide)

/-- The first character of a string, used to tell the report messages
apart. -/
def firstChar (s : String) : Option Char := s.data.head?

theorem firstChar_append_left (s t : String) (c : Char) (h : firstChar s = some c) :
    firstChar (s ++ t) = some c := by
  unfold firstChar at h ⊢
  rw [String.data_append]
  cases hs : s.data with
  | nil => rw [hs] at h; exact absurd h (by simp)
  | cons a as =>
    rw [hs] at h
    simpa using h

theorem ne_of_firstChar_ne {s t : String} (h : firstChar s ≠ firstChar t) : s ≠ t :=
  fun he => h (he ▸ rfl)

theorem firstChar_batchSuccessMsg (t : Bool) (n : Nat) :
    firstChar (batchSuccessMsg t n) = some 'S' := by
  cases t <;> simp only [batchSuccessMsg, if_true, if_false, Bool.false_eq_true] <;>
    exact firstChar_append_left _ _ _ (firstChar_append_left _ _ _ (by decide))

theorem firstChar_singleSuccessMsg (t : Bool) (p : String) :
    firstChar (singleSuccessMsg t p) = some 'S' := by
  cases t <;> simp only [singleSuccessMsg, if_true, if_false, Bool.false_eq_true] <;>
    exact firstChar_append_left _ _ _ (by decide)

theorem firstChar_installing (f : String) :
    firstChar ("Installing dependencies for " ++ f) = some 'I' :=
  firstChar_append_left _ _ _ (by decide)

theorem firstChar_compiling (x : String) :
    firstChar ("Compiling " ++ x) = some 'C' :=
  firstChar_append_left _ _ _ (by decide)

/-! ## Filesystem helper lemmas -/

theorem FS.write_present (fs : FS) (path q : String) :
    (fs.write path).present q = if q = path then true else fs.present q := rfl

theorem FS.remove_present (fs : FS) (path q : String) :
    (fs.remove path).present q = if q = path then false else fs.present q := rfl

theorem FS.write_present_self (fs : FS) (path : String) :
    (fs.write path).present path = true := by simp [FS.write]

theorem FS.remove_present_self (fs : FS) (path : String) :
    (fs.remove path).present path = false := by simp [FS.remove]

theorem FS.write_present_of_ne (fs : FS) {path q : String} (h : q ≠ path) :
    (fs.write path).present q = fs.present q := by simp [FS.write, h]

theorem FS.remove_present_of_ne (fs : FS) {path q : String} (h : q ≠ path) :
    (fs.remove path).present q = fs.present q := by simp [FS.remove, h]

/-- Writing any unit's ephemeral `tsconfig.json` does not change which
`iframe.ts` files exist, so the entry mapping computed for any unit is
unchanged. -/
theorem entriesFor_write_tsconfig (fs : FS) (x ctx : String) :
    entriesFor (fs.write (x ++ "/tsconfig.json")) ctx = entriesFor fs ctx := by
  unfold entriesFor
  rw [FS.write_present_of_ne fs (iframe_ne_tsconfig ctx x)]

/-! ## `installPresenceDependencies` characterization -/

theorem install_no_manifest (c : Compiler) (env : Env) (fs : FS) (p : String)
    (hm : fs.present (c.getPresenceFolder p ++ "/package.json") = false) :
    c.installPresenceDependencies env fs p = ⟨Except.ok (), [], []⟩ := by
  simp only [Compiler.installPresenceDependencies, hm]
  simp

theorem install_calls_eq (c : Compiler) (env : Env) (fs : FS) (p : String) :
    (c.installPresenceDependencies env fs p).calls =
      if fs.present (c.getPresenceFolder p ++ "/package.json") then
        [c.getPresenceFolder p] else [] := by
  simp only [Compiler.installPresenceDependencies]
  cases hm : fs.present (c.getPresenceFolder p ++ "/package.json") with
  | false => simp [hm]
  | true => cases hok : env.installOk (c.getPresenceFolder p) <;> simp [hm, hok]

theorem install_reports_shape (c : Compiler) (env : Env) (fs : FS) (p : String)
    (r : String) (hr : r ∈ (c.installPresenceDependencies env fs p).reports) :
    ∃ f, r = "Installing dependencies for " ++ f := by
  simp only [Compiler.installPresenceDependencies] at hr
  cases hm : fs.present (c.getPresenceFolder p ++ "/package.json") with
  | false => simp [hm] at hr
  | true =>
    cases hok : env.installOk (c.getPresenceFolder p) <;> simp [hm, hok] at hr <;>
      exact ⟨_, hr⟩

theorem install_result_eq (c : Compiler) (env : Env) (fs : FS) (p : String) :
    (c.installPresenceDependencies env fs p).result =
      if fs.present (c.getPresenceFolder p ++ "/package.json") &&
          !(env.installOk (c.getPresenceFolder p)) then
        Except.error (CompileError.installFailed (c.getPresenceFolder p))
      else Except.ok () := by
  simp only [Compiler.installPresenceDependencies]
  cases hm : fs.present (c.getPresenceFolder p ++ "/package.json") with
  | false => simp [hm]
  | true => cases hok : env.installOk (c.getPresenceFolder p) <;> simp [hm, hok]

/-! ## Batch loop lemmas -/

/-- Every message the batch loop reports is a dependency-install message. -/
theorem batchLoop_reports_shape (c : Compiler) (env : Env) (e t : Bool)
    (ps : List String) : ∀ (fs : FS) (r : String),
    r ∈ (batchLoop c env e t ps fs).reports →
    ∃ f, r = "Installing dependencies for " ++ f := by
  induction ps with
  | nil => intro fs r hr; simp [batchLoop] at hr
  | cons p rest ih =>
    intro fs r hr
    simp only [batchLoop] at hr
    cases hres : (c.installPresenceDependencies env
        (FS.write fs (c.getPresenceFolder p ++ "/tsconfig.json")) p).result with
    | error err =>
      simp only [hres] at hr
      exact install_reports_shape _ _ _ _ _ hr
    | ok u =>
      simp only [hres] at hr
      cases herr : (env.bundler (batchBundlerInput e t
          (FS.write fs (c.getPresenceFolder p ++ "/tsconfig.json"))
          (c.getPresenceFolder p))).error with
      | some msg =>
        simp only [herr] at hr
        exact install_reports_shape _ _ _ _ _ hr
      | none =>
        simp only [herr, List.mem_append] at hr
        rcases hr with hr | hr
        · exact install_reports_shape _ _ _ _ _ hr
        · exact ih _ _ hr

/-- The cleanup loop never creates a file. -/
theorem cleanupConfigs_mono (c : Compiler) (ps : List String) : ∀ (fs : FS) (q : String),
    fs.present q = false → (cleanupConfigs c ps fs).present q = false := by
  induction ps with
  | nil => intro fs q h; simpa [cleanupConfigs] using h
  | cons p rest ih =>
    intro fs q h
    simp only [cleanupConfigs]
    apply ih
    by_cases hq : q = c.getPresenceFolder p ++ "/tsconfig.json"
    · subst hq
      split
      · exact FS.remove_present_self _ _
      · exact h
    · split
      · rw [FS.remove_present_of_ne _ hq]; exact h
      · exact h

/-- After the cleanup loop, no unit of the batch still has its ephemeral
config. -/
theorem cleanupConfigs_removes (c : Compiler) (ps : List String) : ∀ (fs : FS),
    ∀ p ∈ ps, (cleanupConfigs c ps fs).present
      (c.getPresenceFolder p ++ "/tsconfig.json") = false := by
  induction ps with
  | nil => intro fs p hp; simp at hp
  | cons q rest ih =>
    intro fs p hp
    rcases List.mem_cons.mp hp with hp | hp
    · subst hp
      simp only [cleanupConfigs]
      apply cleanupConfigs_mono
      by_cases h : fs.present (c.getPresenceFolder p ++ "/tsconfig.json") = true
      · rw [if_pos h]; exact FS.remove_present_self _ _
      · rw [if_neg h]; exact Bool.not_eq_true _ ▸ (by simpa using h)
    · simp only [cleanupConfigs]
      exact ih _ p hp

/-- Every bundler invocation of the batch loop carries the entry mapping
derived from the initial filesystem (the writes of ephemeral configs never
touch an `iframe.ts` path). -/
theorem batchLoop_entries (c : Compiler) (env : Env) (e t : Bool)
    (ps : List String) : ∀ (fs : FS),
    ∀ input ∈ (batchLoop c env e t ps fs).bundlerCalls,
      input.entries = entriesFor fs input.context := by
  induction ps with
  | nil => intro fs input h; simp [batchLoop] at h
  | cons p rest ih =>
    intro fs input h
    simp only [batchLoop] at h
    cases hres : (c.installPresenceDependencies env
        (FS.write fs (c.getPresenceFolder p ++ "/tsconfig.json")) p).result with
    | error err => simp only [hres] at h; simp at h
    | ok u =>
      simp only [hres] at h
      cases herr : (env.bundler (batchBundlerInput e t
          (FS.write fs (c.getPresenceFolder p ++ "/tsconfig.json"))
          (c.getPresenceFolder p))).error with
      | some msg =>
        simp only [herr, List.mem_singleton] at h
        subst h
        simp only [batchBundlerInput]
        exact entriesFor_write_tsconfig fs _ _
      | none =>
        simp only [herr, List.mem_cons] at h
        rcases h with h | h
        · subst h
          simp only [batchBundlerInput]
          exact entriesFor_write_tsconfig fs _ _
        · rw [ih _ input h, entriesFor_write_tsconfig fs _ _]

/-- Every bundler invocation of the batch loop writes (when emitting) to the
unit's own folder, i.e. to its own `context`. -/
theorem batchLoop_output (c : Compiler) (env : Env) (e t : Bool)
    (ps : List String) : ∀ (fs : FS),
    ∀ input ∈ (batchLoop c env e t ps fs).bundlerCalls,
      input.output = if e then some (some input.context) else none := by
  induction ps with
  | nil => intro fs input h; simp [batchLoop] at h
  | cons p rest ih =>
    intro fs input h
    simp only [batchLoop] at h
    cases hres : (c.installPresenceDependencies env
        (FS.write fs (c.getPresenceFolder p ++ "/tsconfig.json")) p).result with
    | error err => simp only [hres] at h; simp at h
    | ok u =>
      simp only [hres] at h
      cases herr : (env.bundler (batchBundlerInput e t
          (FS.write fs (c.getPresenceFolder p ++ "/tsconfig.json"))
          (c.getPresenceFolder p))).error with
      | some msg =>
        simp only [herr, List.mem_singleton] at h
        subst h
        rfl
      | none =>
        simp only [herr, List.mem_cons] at h
        rcases h with h | h
        · subst h; rfl
        · exact ih _ input h

/-- On a normal batch return, the accumulated raw diagnostic list is the
concatenation, in unit order, of each bundler invocation's diagnostics, and
there is exactly one bundler invocation per unit, in order. -/
theorem batchLoop_ok_spec (c : Compiler) (env : Env) (e t : Bool)
    (ps : List String) : ∀ (fs : FS) (raw : List Diagnostic),
    (batchLoop c env e t ps fs).result = Except.ok raw →
    raw = ((batchLoop c env e t ps fs).bundlerCalls.map
        (fun i => (env.bundler i).stats.getD [])).flatten ∧
    (batchLoop c env e t ps fs).bundlerCalls.map (fun i => i.context) =
      ps.map c.getPresenceFolder := by
  induction ps with
  | nil =>
    intro fs raw hraw
    simp only [batchLoop] at hraw ⊢
    cases hraw
    simp
  | cons p rest ih =>
    intro fs raw hraw
    simp only [batchLoop] at hraw ⊢
    cases hres : (c.installPresenceDependencies env
        (FS.write fs (c.getPresenceFolder p ++ "/tsconfig.json")) p).result with
    | error err => rw [hres] at hraw; simp at hraw
    | ok u =>
      rw [hres] at hraw
      simp only [hres]
      cases herr : (env.bundler (batchBundlerInput e t
          (FS.write fs (c.getPresenceFolder p ++ "/tsconfig.json"))
          (c.getPresenceFolder p))).error with
      | some msg => rw [herr] at hraw; simp at hraw
      | none =>
        rw [herr] at hraw
        simp only [herr]
        cases htl : (batchLoop c env e t rest
            (FS.write fs (c.getPresenceFolder p ++ "/tsconfig.json"))).result with
        | error err => simp only [htl] at hraw; exact absurd hraw (by simp)
        | ok ds =>
          simp only [htl] at hraw
          cases hraw
          obtain ⟨h1, h2⟩ := ih _ _ htl
          constructor
          · simp only [List.map_cons, List.flatten_cons]
            rw [← h1]
          · simp only [List.map_cons, h2, batchBundlerInput]

/-- If some bundler invocation recorded by the batch loop had a fatal
invocation error, then the loop stopped at some unit `p'`: the units split as
`pre ++ p' :: post`, the loop's result is that thrown error, exactly the
units `pre ++ [p']` got a bundler invocation (in order), only they got
installer invocations, and the filesystem outside their ephemeral configs is
untouched — in particular no unit of `post` had any step executed. -/
theorem batchLoop_error_spec (c : Compiler) (env : Env) (e t : Bool)
    (ps : List String) : ∀ (fs : FS),
    (∃ input ∈ (batchLoop c env e t ps fs).bundlerCalls,
      (env.bundler input).error ≠ none) →
    ∃ m pre p' post,
      ps = pre ++ p' :: post ∧
      (batchLoop c env e t ps fs).result = Except.error (CompileError.bundlerError m) ∧
      (batchLoop c env e t ps fs).bundlerCalls.map (fun i => i.context) =
        (pre ++ [p']).map c.getPresenceFolder ∧
      (∀ f ∈ (batchLoop c env e t ps fs).installerCalls,
        ∃ q ∈ pre ++ [p'], f = c.getPresenceFolder q) ∧
      (∀ path, (∀ q ∈ pre ++ [p'], path ≠ c.getPresenceFolder q ++ "/tsconfig.json") →
        (batchLoop c env e t ps fs).fs.present path = fs.present path) := by
  induction ps with
  | nil =>
    rintro fs ⟨input, hin, hne⟩
    simp [batchLoop] at hin
  | cons p rest ih =>
    rintro fs ⟨input, hin, hne⟩
    simp only [batchLoop] at hin ⊢
    cases hres : (c.installPresenceDependencies env
        (FS.write fs (c.getPresenceFolder p ++ "/tsconfig.json")) p).result with
    | error err =>
      rw [hres] at hin; simp at hin
    | ok u =>
      rw [hres] at hin
      simp only [hres]
      cases herr : (env.bundler (batchBundlerInput e t
          (FS.write fs (c.getPresenceFolder p ++ "/tsconfig.json"))
          (c.getPresenceFolder p))).error with
      | some msg =>
        rw [herr] at hin
        simp only [herr]
        refine ⟨msg, [], p, rest, rfl, rfl, by simp [batchBundlerInput], ?_, ?_⟩
        · intro f hf
          rw [install_calls_eq] at hf
          split at hf
          · simp only [List.mem_singleton] at hf
            exact ⟨p, by simp, hf⟩
          · simp at hf
        · intro path hpath
          exact FS.write_present_of_ne fs (hpath p (by simp))
      | none =>
        rw [herr] at hin
        simp only [herr]
        rcases List.mem_cons.mp hin with heq | hintl
        · subst heq
          exact absurd herr hne
        · obtain ⟨m, pre, p', post, hsplit, hres', hmap, hinst, hframe⟩ :=
            ih _ ⟨input, hintl, hne⟩
          refine ⟨m, p :: pre, p', post, by simp [hsplit], ?_, ?_, ?_, ?_⟩
          · simp only [hres']
          · simp only [List.cons_append, List.map_cons, hmap, batchBundlerInput]
          · intro f hf
            simp only [List.mem_append] at hf
            rcases hf with hf | hf
            · rw [install_calls_eq] at hf
              split at hf
              · simp only [List.mem_singleton] at hf
                exact ⟨p, by simp, hf⟩
              · simp at hf
            · obtain ⟨q, hq, hfq⟩ := hinst f hf
              exact ⟨q, List.mem_cons_of_mem _ hq, hfq⟩
          · intro path hpath
            have h1 : (batchLoop c env e t rest
                (FS.write fs (c.getPresenceFolder p ++ "/tsconfig.json"))).fs.present path =
                (FS.write fs (c.getPresenceFolder p ++ "/tsconfig.json")).present path := by
              apply hframe
              intro q hq
              exact hpath q (List.mem_cons_of_mem _ hq)
            rw [h1]
            exact FS.write_present_of_ne fs (hpath p (List.mem_cons_self _ _))

/-! ## Single branch characterization -/

/-- The options value after the single branch's `if (!options.output)
options.output = presencePath`. -/
def singleFinalOptions (c : Compiler) (p : String) (opts1 : Options) : Options :=
  if jsFalsyStr opts1.output then { opts1 with output := some (c.getPresenceFolder p) }
  else opts1

theorem compileSingle_install_fail (c : Compiler) (env : Env) (fs : FS) (p : String)
    (opts1 : Options) (cfgT : Bool) (cfgOutput : Option (Option String))
    (hm : fs.present (c.getPresenceFolder p ++ "/package.json") = true)
    (hok : env.installOk (c.getPresenceFolder p) = false) :
    c.compileSingle env fs p opts1 cfgT cfgOutput =
      ⟨Except.error (CompileError.installFailed (c.getPresenceFolder p)),
        fs.write (c.getPresenceFolder p ++ "/tsconfig.json"),
        ["Installing dependencies for " ++ basename (c.getPresenceFolder p)],
        [], [c.getPresenceFolder p], singleFinalOptions c p opts1⟩ := by
  have hm1 : (fs.write (c.getPresenceFolder p ++ "/tsconfig.json")).present
      (c.getPresenceFolder p ++ "/package.json") = true := by
    rw [FS.write_present_of_ne fs (package_ne_tsconfig _)]; exact hm
  simp only [Compiler.compileSingle, Compiler.installPresenceDependencies, hm1, hok,
    singleFinalOptions]
  simp

theorem compileSingle_bundler_fail (c : Compiler) (env : Env) (fs : FS) (p : String)
    (opts1 : Options) (cfgT : Bool) (cfgOutput : Option (Option String)) (m : String)
    (hinst : (c.installPresenceDependencies env
      (fs.write (c.getPresenceFolder p ++ "/tsconfig.json")) p).result = Except.ok ())
    (herr : (env.bundler (singleBundlerInput cfgOutput cfgT
      (fs.write (c.getPresenceFolder p ++ "/tsconfig.json"))
      (c.getPresenceFolder p))).error = some m) :
    c.compileSingle env fs p opts1 cfgT cfgOutput =
      ⟨Except.error (CompileError.bundlerError m),
        (fs.write (c.getPresenceFolder p ++ "/tsconfig.json")).remove
          (c.getPresenceFolder p ++ "/tsconfig.json"),
        (c.installPresenceDependencies env
          (fs.write (c.getPresenceFolder p ++ "/tsconfig.json")) p).reports ++
          ["Compiling " ++ p ++ "..."],
        [singleBundlerInput cfgOutput cfgT
          (fs.write (c.getPresenceFolder p ++ "/tsconfig.json")) (c.getPresenceFolder p)],
        (c.installPresenceDependencies env
          (fs.write (c.getPresenceFolder p ++ "/tsconfig.json")) p).calls,
        singleFinalOptions c p opts1⟩ := by
  simp only [Compiler.compileSingle, hinst, herr, singleFinalOptions,
    FS.write_present_self, if_true]

theorem compileSingle_ok_eq (c : Compiler) (env : Env) (fs : FS) (p : String)
    (opts1 : Options) (cfgT : Bool) (cfgOutput : Option (Option String))
    (hinst : (c.installPresenceDependencies env
      (fs.write (c.getPresenceFolder p ++ "/tsconfig.json")) p).result = Except.ok ())
    (herr : (env.bundler (singleBundlerInput cfgOutput cfgT
      (fs.write (c.getPresenceFolder p ++ "/tsconfig.json"))
      (c.getPresenceFolder p))).error = none) :
    c.compileSingle env fs p opts1 cfgT cfgOutput =
      ⟨Except.ok (((env.bundler (singleBundlerInput cfgOutput cfgT
          (fs.write (c.getPresenceFolder p ++ "/tsconfig.json"))
          (c.getPresenceFolder p))).stats.map filterModuleBuildErrors).getD []),
        (fs.write (c.getPresenceFolder p ++ "/tsconfig.json")).remove
          (c.getPresenceFolder p ++ "/tsconfig.json"),
        (c.installPresenceDependencies env
          (fs.write (c.getPresenceFolder p ++ "/tsconfig.json")) p).reports ++
          ["Compiling " ++ p ++ "..."] ++
          (if rawEmptyOf (env.bundler (singleBundlerInput cfgOutput cfgT
              (fs.write (c.getPresenceFolder p ++ "/tsconfig.json"))
              (c.getPresenceFolder p))).stats then [singleSuccessMsg cfgT p] else []),
        [singleBundlerInput cfgOutput cfgT
          (fs.write (c.getPresenceFolder p ++ "/tsconfig.json")) (c.getPresenceFolder p)],
        (c.installPresenceDependencies env
          (fs.write (c.getPresenceFolder p ++ "/tsconfig.json")) p).calls,
        singleFinalOptions c p opts1⟩ := by
  simp only [Compiler.compileSingle, hinst, herr, singleFinalOptions,
    FS.write_present_self, if_true]

/-- The single branch's install step can only throw `installFailed`; when the
result is something else, the install result was `ok`. -/
theorem install_result_cases (c : Compiler) (env : Env) (fs : FS) (p : String) :
    (c.installPresenceDependencies env fs p).result = Except.ok () ∨
    ((c.installPresenceDependencies env fs p).result =
        Except.error (CompileError.installFailed (c.getPresenceFolder p)) ∧
      fs.present (c.getPresenceFolder p ++ "/package.json") = true ∧
      env.installOk (c.getPresenceFolder p) = false) := by
  rw [install_result_eq]
  cases hm : fs.present (c.getPresenceFolder p ++ "/package.json") with
  | false => left; simp
  | true =>
    cases hok : env.installOk (c.getPresenceFolder p) with
    | false => right; simp
    | true => left; simp

/-- Dispatch of `compilePresence` to the single branch. -/
theorem compilePresence_single_eq (c : Compiler) (env : Env) (fs : FS) (p : String)
    (options : Options) :
    c.compilePresence env fs (PresenceArg.single p) options =
      c.compileSingle env fs p
        { options with
          emit := some (options.emit.getD true)
          transpileOnly := some (options.transpileOnly.getD false) }
        (options.transpileOnly.getD false)
        (if options.emit.getD true then some options.output else none) := rfl

/-- Dispatch of `compilePresence` to the batch branch. -/
theorem compilePresence_batch_eq (c : Compiler) (env : Env) (fs : FS)
    (ps : List String) (options : Options) :
    c.compilePresence env fs (PresenceArg.batch ps) options =
      c.compileBatch env fs ps
        { options with
          emit := some (options.emit.getD true)
          transpileOnly := some (options.transpileOnly.getD false) }
        (options.emit.getD true) (options.transpileOnly.getD false) := rfl

theorem write_ts_pkg (fs : FS) (folder : String) :
    (fs.write (folder ++ "/tsconfig.json")).present (folder ++ "/package.json") =
      fs.present (folder ++ "/package.json") :=
  FS.write_present_of_ne fs (package_ne_tsconfig folder)

theorem write_ts_iframe (fs : FS) (x folder : String) :
    (fs.write (x ++ "/tsconfig.json")).present (folder ++ "/iframe.ts") =
      fs.present (folder ++ "/iframe.ts") :=
  FS.write_present_of_ne fs (iframe_ne_tsconfig folder x)

/-- The single branch only ever writes or removes the unit's own ephemeral
config; every other path is untouched by `compilePresence`. -/
theorem compileSingle_fs_frame (c : Compiler) (env : Env) (fs : FS) (p : String)
    (opts1 : Options) (cfgT : Bool) (cfgOutput : Option (Option String))
    (q : String) (hq : q ≠ c.getPresenceFolder p ++ "/tsconfig.json") :
    (c.compileSingle env fs p opts1 cfgT cfgOutput).fs.present q = fs.present q := by
  rcases install_result_cases c env
      (fs.write (c.getPresenceFolder p ++ "/tsconfig.json")) p with hinst | ⟨hinst, hm, hok⟩
  · cases herr : (env.bundler (singleBundlerInput cfgOutput cfgT
        (fs.write (c.getPresenceFolder p ++ "/tsconfig.json"))
        (c.getPresenceFolder p))).error with
    | some m =>
      rw [compileSingle_bundler_fail c env fs p opts1 cfgT cfgOutput m hinst herr]
      rw [FS.remove_present_of_ne _ hq, FS.write_present_of_ne _ hq]
    | none =>
      rw [compileSingle_ok_eq c env fs p opts1 cfgT cfgOutput hinst herr]
      rw [FS.remove_present_of_ne _ hq, FS.write_present_of_ne _ hq]
  · have hm' : fs.present (c.getPresenceFolder p ++ "/package.json") = true := by
      rw [← write_ts_pkg fs (c.getPresenceFolder p)]; exact hm
    rw [compileSingle_install_fail c env fs p opts1 cfgT cfgOutput hm' hok]
    exact FS.write_present_of_ne _ hq

/-- `installPresenceDependencies` reads the filesystem only through the
existence of the unit's `package.json`. -/
theorem install_congr (c : Compiler) (env : Env) {fs fs' : FS} (p : String)
    (h : fs.present (c.getPresenceFolder p ++ "/package.json") =
      fs'.present (c.getPresenceFolder p ++ "/package.json")) :
    c.installPresenceDependencies env fs p = c.installPresenceDependencies env fs' p := by
  simp only [Compiler.installPresenceDependencies, h]

/-- The result of the single branch depends on the filesystem only through
the existence of the unit's `package.json` and `iframe.ts`. -/
theorem compileSingle_result_congr (c : Compiler) (env : Env) (fs fs' : FS)
    (p : String) (opts1 : Options) (cfgT : Bool) (cfgOutput : Option (Option String))
    (hpkg : fs.present (c.getPresenceFolder p ++ "/package.json") =
      fs'.present (c.getPresenceFolder p ++ "/package.json"))
    (hifr : fs.present (c.getPresenceFolder p ++ "/iframe.ts") =
      fs'.present (c.getPresenceFolder p ++ "/iframe.ts")) :
    (c.compileSingle env fs p opts1 cfgT cfgOutput).result =
      (c.compileSingle env fs' p opts1 cfgT cfgOutput).result := by
  have hpkg1 : (fs.write (c.getPresenceFolder p ++ "/tsconfig.json")).present
      (c.getPresenceFolder p ++ "/package.json") =
      (fs'.write (c.getPresenceFolder p ++ "/tsconfig.json")).present
      (c.getPresenceFolder p ++ "/package.json") := by
    rw [write_ts_pkg, write_ts_pkg]; exact hpkg
  have hinst := install_congr c env p hpkg1
  have hinput : singleBundlerInput cfgOutput cfgT
      (fs.write (c.getPresenceFolder p ++ "/tsconfig.json")) (c.getPresenceFolder p) =
      singleBundlerInput cfgOutput cfgT
      (fs'.write (c.getPresenceFolder p ++ "/tsconfig.json")) (c.getPresenceFolder p) := by
    simp only [singleBundlerInput, entriesFor]
    rw [write_ts_iframe, write_ts_iframe, hifr]
  rcases install_result_cases c env
      (fs'.write (c.getPresenceFolder p ++ "/tsconfig.json")) p with hres | ⟨hres, hm, hok⟩
  · have hresL : (c.installPresenceDependencies env
        (fs.write (c.getPresenceFolder p ++ "/tsconfig.json")) p).result =
        Except.ok () := by rw [hinst]; exact hres
    cases herr : (env.bundler (singleBundlerInput cfgOutput cfgT
        (fs'.write (c.getPresenceFolder p ++ "/tsconfig.json"))
        (c.getPresenceFolder p))).error with
    | some m =>
      have herrL : (env.bundler (singleBundlerInput cfgOutput cfgT
          (fs.write (c.getPresenceFolder p ++ "/tsconfig.json"))
          (c.getPresenceFolder p))).error = some m := by rw [hinput]; exact herr
      rw [compileSingle_bundler_fail c env fs p opts1 cfgT cfgOutput m hresL herrL,
        compileSingle_bundler_fail c env fs' p opts1 cfgT cfgOutput m hres herr]
    | none =>
      have herrL : (env.bundler (singleBundlerInput cfgOutput cfgT
          (fs.write (c.getPresenceFolder p ++ "/tsconfig.json"))
          (c.getPresenceFolder p))).error = none := by rw [hinput]; exact herr
      rw [compileSingle_ok_eq c env fs p opts1 cfgT cfgOutput hresL herrL,
        compileSingle_ok_eq c env fs' p opts1 cfgT cfgOutput hres herr]
      simp only [hinput]
  · have hmR : fs'.present (c.getPresenceFolder p ++ "/package.json") = true := by
      rw [← write_ts_pkg fs' (c.getPresenceFolder p)]; exact hm
    have hmL : fs.present (c.getPresenceFolder p ++ "/package.json") = true := by
      rw [hpkg]; exact hmR
    rw [compileSingle_install_fail c env fs p opts1 cfgT cfgOutput hmL hok,
      compileSingle_install_fail c env fs' p opts1 cfgT cfgOutput hmR hok]

/-! ## Report message disambiguation -/

theorem firstChar_compiling_header (n : Nat) :
    firstChar ("Compiling " ++ toString n ++ " Presence(s)") = some 'C' :=
  firstChar_append_left _ _ _ (firstChar_compiling _)

theorem batchSuccessMsg_ne_header (tO : Bool) (n k : Nat) :
    batchSuccessMsg tO n ≠ "Compiling " ++ toString k ++ " Presence(s)" :=
  ne_of_firstChar_ne
    (by rw [firstChar_batchSuccessMsg, firstChar_compiling_header]; decide)

theorem batchSuccessMsg_ne_installing (tO : Bool) (n : Nat) (f : String) :
    batchSuccessMsg tO n ≠ "Installing dependencies for " ++ f :=
  ne_of_firstChar_ne (by rw [firstChar_batchSuccessMsg, firstChar_installing]; decide)

theorem singleSuccessMsg_ne_compiling (tO : Bool) (p x : String) :
    singleSuccessMsg tO p ≠ "Compiling " ++ x :=
  ne_of_firstChar_ne (by rw [firstChar_singleSuccessMsg, firstChar_compiling]; decide)

theorem singleSuccessMsg_ne_installing (tO : Bool) (p f : String) :
    singleSuccessMsg tO p ≠ "Installing dependencies for " ++ f :=
  ne_of_firstChar_ne (by rw [firstChar_singleSuccessMsg, firstChar_installing]; decide)

/-! ## Batch branch projections -/

theorem compileBatch_finalOptions (c : Compiler) (env : Env) (fs : FS)
    (ps : List String) (opts1 : Options) (e t : Bool) :
    (c.compileBatch env fs ps opts1 e t).finalOptions = opts1 := by
  simp only [Compiler.compileBatch]
  cases hres : (batchLoop c env e t ps fs).result <;> simp [hres]

theorem compileBatch_bundlerCalls (c : Compiler) (env : Env) (fs : FS)
    (ps : List String) (opts1 : Options) (e t : Bool) :
    (c.compileBatch env fs ps opts1 e t).bundlerCalls =
      (batchLoop c env e t ps fs).bundlerCalls := by
  simp only [Compiler.compileBatch]
  cases hres : (batchLoop c env e t ps fs).result <;> simp [hres]

theorem compileBatch_installerCalls (c : Compiler) (env : Env) (fs : FS)
    (ps : List String) (opts1 : Options) (e t : Bool) :
    (c.compileBatch env fs ps opts1 e t).installerCalls =
      (batchLoop c env e t ps fs).installerCalls := by
  simp only [Compiler.compileBatch]
  cases hres : (batchLoop c env e t ps fs).result <;> simp [hres]

theorem compileSingle_finalOptions_eq (c : Compiler) (env : Env) (fs : FS) (p : String)
    (opts1 : Options) (cfgT : Bool) (cfgOutput : Option (Option String)) :
    (c.compileSingle env fs p opts1 cfgT cfgOutput).finalOptions =
      singleFinalOptions c p opts1 := by
  rcases install_result_cases c env
      (fs.write (c.getPresenceFolder p ++ "/tsconfig.json")) p with hinst | ⟨hinst, hm, hok⟩
  · cases herr : (env.bundler (singleBundlerInput cfgOutput cfgT
        (fs.write (c.getPresenceFolder p ++ "/tsconfig.json"))
        (c.getPresenceFolder p))).error with
    | some m => rw [compileSingle_bundler_fail c env fs p opts1 cfgT cfgOutput m hinst herr]
    | none => rw [compileSingle_ok_eq c env fs p opts1 cfgT cfgOutput hinst herr]
  · have hm' : fs.present (c.getPresenceFolder p ++ "/package.json") = true := by
      rw [← write_ts_pkg fs (c.getPresenceFolder p)]; exact hm
    rw [compileSingle_install_fail c env fs p opts1 cfgT cfgOutput hm' hok]

/-! ## Concrete scenarios for witnesses and counterexamples -/

/-- A concrete compiler: repository root `"/repo"`, every presence filed
under folder letter `"W"`. -/
def cW : Compiler := ⟨"/repo", fun _ => "W"⟩

/-- A filesystem on which exactly the given paths exist. -/
def fsOf (paths : List String) : FS := ⟨fun q => paths.contains q⟩

/-- Installs succeed, the bundler succeeds with an empty diagnostic list. -/
def envClean : Env := ⟨fun _ => ⟨none, some []⟩, fun _ => true⟩

/-- Installs fail (non-zero `npm install` exit); bundler would be clean. -/
def envInstallFail : Env := ⟨fun _ => ⟨none, some []⟩, fun _ => false⟩

/-- A wrapper-kind diagnostic with no underlying diagnostic beside it. -/
def mbeDiag : Diagnostic := ⟨"ModuleBuildError", "wrapped failure", "presence.ts", 3, 1⟩

/-- An ordinary (non-wrapper) diagnostic. -/
def tsDiag : Diagnostic := ⟨"TSError", "type mismatch", "presence.ts", 7, 5⟩

/-- The bundler reports exactly the wrapper diagnostic, nothing else. -/
def envWrapperOnly : Env := ⟨fun _ => ⟨none, some [mbeDiag]⟩, fun _ => true⟩

/-- The bundler reports exactly one ordinary diagnostic. -/
def envOneDiag : Env := ⟨fun _ => ⟨none, some [tsDiag]⟩, fun _ => true⟩

/-- The bundler fails fatally exactly on unit `"b"`. -/
def envFailOnB : Env :=
  ⟨fun i => if i.context == cW.getPresenceFolder "b" then ⟨some "boom", none⟩
    else ⟨none, some []⟩, fun _ => true⟩

/-! ## C7 -/

/-- C7: `installPresenceDependencies` invokes the installer (scoped to the
unit's folder) iff a `package.json` exists there; with no manifest it
returns without error, reports nothing, and invokes nothing. -/
theorem c7_install_iff (c : Compiler) (env : Env) (fs : FS) (p : String) :
    (c.installPresenceDependencies env fs p).calls =
      (if fs.present (c.getPresenceFolder p ++ "/package.json") then
        [c.getPresenceFolder p] else []) ∧
    (fs.present (c.getPresenceFolder p ++ "/package.json") = false →
      c.installPresenceDependencies env fs p = ⟨Except.ok (), [], []⟩) :=
  ⟨install_calls_eq c env fs p, fun hm => install_no_manifest c env fs p hm⟩

theorem c7_install_iff_witness :
    (fsOf []).present (cW.getPresenceFolder "a" ++ "/package.json") = false ∧
    cW.installPresenceDependencies envClean (fsOf []) "a" = ⟨Except.ok (), [], []⟩ :=
  ⟨by decide, (c7_install_iff cW envClean (fsOf []) "a").2 (by decide)⟩

/-! ## C10 -/

/-- C10: `compilePresence` mutates the caller's options object: after any
call (single or batch, also one that throws) `options.emit` is set,
defaulted to `true`, and `options.transpileOnly` is set, defaulted to
`false`; after a single-unit call with no `output` given, `options.output`
is overwritten with the resolved unit directory. -/
theorem c10_options_mutation (c : Compiler) (env : Env) (fs : FS) (arg : PresenceArg)
    (options : Options) :
    (c.compilePresence env fs arg options).finalOptions.emit =
      some (options.emit.getD true) ∧
    (c.compilePresence env fs arg options).finalOptions.transpileOnly =
      some (options.transpileOnly.getD false) ∧
    (∀ p, arg = PresenceArg.single p → options.output = none →
      (c.compilePresence env fs arg options).finalOptions.output =
        some (c.getPresenceFolder p)) := by
  cases arg with
  | batch ps =>
    rw [compilePresence_batch_eq, compileBatch_finalOptions]
    exact ⟨rfl, rfl, fun p hp => absurd hp (by simp)⟩
  | single p0 =>
    rw [compilePresence_single_eq, compileSingle_finalOptions_eq]
    unfold singleFinalOptions
    refine ⟨?_, ?_, ?_⟩
    · split <;> rfl
    · split <;> rfl
    · intro p hp hout
      cases hp
      rw [hout]
      simp [jsFalsyStr]

theorem c10_options_mutation_witness :
    (cW.compilePresence envClean (fsOf []) (PresenceArg.single "a") {}).finalOptions.emit =
      some true ∧
    (cW.compilePresence envClean (fsOf [])
      (PresenceArg.single "a") {}).finalOptions.transpileOnly = some false ∧
    (cW.compilePresence envClean (fsOf []) (PresenceArg.single "a") {}).finalOptions.output =
      some (cW.getPresenceFolder "a") := by
  obtain ⟨h1, h2, h3⟩ :=
    c10_options_mutation cW envClean (fsOf []) (PresenceArg.single "a") {}
  exact ⟨h1, h2, h3 "a" rfl rfl⟩

/-! ## C8 -/

/-- C8: after a single-unit call that returns with an empty diagnostic list,
the ephemeral `tsconfig.json` is absent from the unit's directory, whatever
the initial filesystem contained at that path. -/
theorem c8_single_empty_diags_tsconfig_absent (c : Compiler) (env : Env) (fs : FS)
    (p : String) (options : Options)
    (h : (c.compilePresence env fs (PresenceArg.single p) options).result =
      Except.ok []) :
    (c.compilePresence env fs (PresenceArg.single p) options).fs.present
      (c.getPresenceFolder p ++ "/tsconfig.json") = false := by
  rw [compilePresence_single_eq] at h ⊢
  rcases install_result_cases c env
      (fs.write (c.getPresenceFolder p ++ "/tsconfig.json")) p with hinst | ⟨hinst, hm, hok⟩
  · cases herr : (env.bundler (singleBundlerInput
        (if options.emit.getD true then some options.output else none)
        (options.transpileOnly.getD false)
        (fs.write (c.getPresenceFolder p ++ "/tsconfig.json"))
        (c.getPresenceFolder p))).error with
    | some m =>
      rw [compileSingle_bundler_fail c env fs p _ _ _ m hinst herr] at h
      exact absurd h (by simp)
    | none =>
      rw [compileSingle_ok_eq c env fs p _ _ _ hinst herr]
      exact FS.remove_present_self _ _
  · have hm' : fs.present (c.getPresenceFolder p ++ "/package.json") = true := by
      rw [← write_ts_pkg fs (c.getPresenceFolder p)]; exact hm
    rw [compileSingle_install_fail c env fs p _ _ _ hm' hok] at h
    exact absurd h (by simp)

theorem c8_witness :
    (cW.compilePresence envClean (fsOf [cW.getPresenceFolder "a" ++ "/tsconfig.json"])
      (PresenceArg.single "a") {}).result = Except.ok [] ∧
    (cW.compilePresence envClean (fsOf [cW.getPresenceFolder "a" ++ "/tsconfig.json"])
      (PresenceArg.single "a") {}).fs.present
      (cW.getPresenceFolder "a" ++ "/tsconfig.json") = false :=
  ⟨by decide, c8_single_empty_diags_tsconfig_absent cW envClean
    (fsOf [cW.getPresenceFolder "a" ++ "/tsconfig.json"]) "a" {} (by decide)⟩

/-! ## C9 -/

/-- C9: compiling the same single unit twice with the same option values and
the same external collaborators yields the same outcome the second time: the
filesystem state the first call leaves behind does not change the second
call's result (in particular the diagnostic lists agree in content and
length). -/
theorem c9_idempotent (c : Compiler) (env : Env) (fs : FS) (p : String)
    (options : Options) :
    (c.compilePresence env (c.compilePresence env fs (PresenceArg.single p) options).fs
      (PresenceArg.single p) options).result =
      (c.compilePresence env fs (PresenceArg.single p) options).result := by
  rw [compilePresence_single_eq c env fs p options,
    compilePresence_single_eq c env _ p options]
  apply compileSingle_result_congr
  · exact compileSingle_fs_frame c env fs p _ _ _ _ (package_ne_tsconfig _)
  · exact compileSingle_fs_frame c env fs p _ _ _ _ (iframe_ne_tsconfig _ _)

/-! ## C1 -/

/-- C1 counterexample: for a single unit whose directory has a
`package.json` and whose dependency installation fails, `compilePresence`
throws the installation error while the ephemeral `tsconfig.json` it wrote
is still present in the unit's directory — the removal is skipped on this
exit path, contrary to the claim that it happens on every exit path. -/
theorem c1_counterexample :
    (cW.compilePresence envInstallFail
      (fsOf [cW.getPresenceFolder "a" ++ "/package.json"])
      (PresenceArg.single "a") {}).result =
      Except.error (CompileError.installFailed (cW.getPresenceFolder "a")) ∧
    (cW.compilePresence envInstallFail
      (fsOf [cW.getPresenceFolder "a" ++ "/package.json"])
      (PresenceArg.single "a") {}).fs.present
      (cW.getPresenceFolder "a" ++ "/tsconfig.json") = true :=
  ⟨by decide, by decide⟩

/-- C1 amended: the ephemeral `tsconfig.json` of a unit is removed before
`compilePresence` returns on the normal return paths (single or batch, with
or without diagnostics), and in single-unit mode also before a fatal bundler
invocation error is thrown; it is not removed when dependency installation
throws, nor in batch mode when a fatal bundler invocation error aborts the
batch. -/
theorem c1_cleanup_amended (c : Compiler) (env : Env) (fs : FS) (options : Options) :
    (∀ p ds, (c.compilePresence env fs (PresenceArg.single p) options).result =
        Except.ok ds →
      (c.compilePresence env fs (PresenceArg.single p) options).fs.present
        (c.getPresenceFolder p ++ "/tsconfig.json") = false) ∧
    (∀ p m, (c.compilePresence env fs (PresenceArg.single p) options).result =
        Except.error (CompileError.bundlerError m) →
      (c.compilePresence env fs (PresenceArg.single p) options).fs.present
        (c.getPresenceFolder p ++ "/tsconfig.json") = false) ∧
    (∀ ps raw, (c.compilePresence env fs (PresenceArg.batch ps) options).result =
        Except.ok raw →
      ∀ p ∈ ps, (c.compilePresence env fs (PresenceArg.batch ps) options).fs.present
        (c.getPresenceFolder p ++ "/tsconfig.json") = false) := by
  refine ⟨?_, ?_, ?_⟩
  · intro p ds h
    rw [compilePresence_single_eq] at h ⊢
    rcases install_result_cases c env
        (fs.write (c.getPresenceFolder p ++ "/tsconfig.json")) p with
      hinst | ⟨hinst, hm, hok⟩
    · cases herr : (env.bundler (singleBundlerInput
          (if options.emit.getD true then some options.output else none)
          (options.transpileOnly.getD false)
          (fs.write (c.getPresenceFolder p ++ "/tsconfig.json"))
          (c.getPresenceFolder p))).error with
      | some m =>
        rw [compileSingle_bundler_fail c env fs p _ _ _ m hinst herr] at h
        exact absurd h (by simp)
      | none =>
        rw [compileSingle_ok_eq c env fs p _ _ _ hinst herr]
        exact FS.remove_present_self _ _
    · have hm' : fs.present (c.getPresenceFolder p ++ "/package.json") = true := by
        rw [← write_ts_pkg fs (c.getPresenceFolder p)]; exact hm
      rw [compileSingle_install_fail c env fs p _ _ _ hm' hok] at h
      exact absurd h (by simp)
  · intro p m h
    rw [compilePresence_single_eq] at h ⊢
    rcases install_result_cases c env
        (fs.write (c.getPresenceFolder p ++ "/tsconfig.json")) p with
      hinst | ⟨hinst, hm, hok⟩
    · cases herr : (env.bundler (singleBundlerInput
          (if options.emit.getD true then some options.output else none)
          (options.transpileOnly.getD false)
          (fs.write (c.getPresenceFolder p ++ "/tsconfig.json"))
          (c.getPresenceFolder p))).error with
      | some m' =>
        rw [compileSingle_bundler_fail c env fs p _ _ _ m' hinst herr]
        exact FS.remove_present_self _ _
      | none =>
        rw [compileSingle_ok_eq c env fs p _ _ _ hinst herr]
        exact FS.remove_present_self _ _
    · have hm' : fs.present (c.getPresenceFolder p ++ "/package.json") = true := by
        rw [← write_ts_pkg fs (c.getPresenceFolder p)]; exact hm
      rw [compileSingle_install_fail c env fs p _ _ _ hm' hok] at h
      simp at h
  · intro ps raw h hp hmem
    rw [compilePresence_batch_eq] at h ⊢
    cases hres : (batchLoop c env (options.emit.getD true)
        (options.transpileOnly.getD false) ps fs).result with
    | error e =>
      simp only [Compiler.compileBatch, hres] at h
      exact absurd h (by simp)
    | ok raw' =>
      simp only [Compiler.compileBatch, hres]
      exact cleanupConfigs_removes c ps _ hp hmem

theorem c1_cleanup_amended_witness :
    (cW.compilePresence envClean (fsOf []) (PresenceArg.batch ["a", "b"]) {}).result =
      Except.ok [] ∧
    (cW.compilePresence envClean (fsOf []) (PresenceArg.batch ["a", "b"]) {}).fs.present
      (cW.getPresenceFolder "a" ++ "/tsconfig.json") = false :=
  ⟨by decide,
    (c1_cleanup_amended cW envClean (fsOf []) {}).2.2 ["a", "b"] [] (by decide) "a"
      (by decide)⟩

/-! ## C2 -/

/-- C2 counterexample: a single-unit call whose bundler reports exactly one
`ModuleBuildError` wrapper diagnostic returns the empty (post-filter) list,
yet neither success message is reported — the success decision looked at the
raw list, which was non-empty, so success is not reported iff-the-filtered-
list-is-empty is false. -/
theorem c2_counterexample :
    (cW.compilePresence envWrapperOnly (fsOf []) (PresenceArg.single "a") {}).result =
      Except.ok [] ∧
    singleSuccessMsg false "a" ∉
      (cW.compilePresence envWrapperOnly (fsOf []) (PresenceArg.single "a") {}).reports ∧
    singleSuccessMsg true "a" ∉
      (cW.compilePresence envWrapperOnly (fsOf []) (PresenceArg.single "a") {}).reports :=
  ⟨by decide, by decide, by decide⟩

/-- C2 amended: for a single-unit call that returns normally, the success
message is reported iff the RAW diagnostic list delivered by the bundler
(before the wrapper-error filter; empty also when `stats` is absent) is
empty; the filter is applied only after the success decision, so a call can
return an empty filtered list without the success message having been
reported. -/
theorem c2_success_iff_raw_empty (c : Compiler) (env : Env) (fs : FS) (p : String)
    (options : Options) (ds : List Diagnostic)
    (h : (c.compilePresence env fs (PresenceArg.single p) options).result =
      Except.ok ds) :
    ∀ input ∈ (c.compilePresence env fs (PresenceArg.single p) options).bundlerCalls,
      (singleSuccessMsg (options.transpileOnly.getD false) p ∈
          (c.compilePresence env fs (PresenceArg.single p) options).reports ↔
        rawEmptyOf (env.bundler input).stats = true) := by
  rw [compilePresence_single_eq] at h ⊢
  rcases install_result_cases c env
      (fs.write (c.getPresenceFolder p ++ "/tsconfig.json")) p with
    hinst | ⟨hinst, hm, hok⟩
  · cases herr : (env.bundler (singleBundlerInput
        (if options.emit.getD true then some options.output else none)
        (options.transpileOnly.getD false)
        (fs.write (c.getPresenceFolder p ++ "/tsconfig.json"))
        (c.getPresenceFolder p))).error with
    | some m =>
      rw [compileSingle_bundler_fail c env fs p _ _ _ m hinst herr] at h
      exact absurd h (by simp)
    | none =>
      rw [compileSingle_ok_eq c env fs p _ _ _ hinst herr]
      intro input hin
      simp only [List.mem_singleton] at hin
      subst hin
      cases hre : rawEmptyOf (env.bundler (singleBundlerInput
          (if options.emit.getD true then some options.output else none)
          (options.transpileOnly.getD false)
          (fs.write (c.getPresenceFolder p ++ "/tsconfig.json"))
          (c.getPresenceFolder p))).stats with
      | true => simp [hre]
      | false =>
        simp only [hre, if_false, Bool.false_eq_true, iff_false, List.append_nil]
        intro hmem
        rcases List.mem_append.mp hmem with hmem | hmem
        · obtain ⟨f, hf⟩ := install_reports_shape c env _ p _ hmem
          exact singleSuccessMsg_ne_installing _ p f hf
        · simp only [List.mem_singleton] at hmem
          exact singleSuccessMsg_ne_compiling _ p _ hmem
  · have hm' : fs.present (c.getPresenceFolder p ++ "/package.json") = true := by
      rw [← write_ts_pkg fs (c.getPresenceFolder p)]; exact hm
    rw [compileSingle_install_fail c env fs p _ _ _ hm' hok] at h
    exact absurd h (by simp)

theorem c2_success_iff_raw_empty_witness :
    (cW.compilePresence envClean (fsOf []) (PresenceArg.single "w2") {}).result =
      Except.ok [] ∧
    (singleBundlerInput (some none) false
        ((fsOf []).write (cW.getPresenceFolder "w2" ++ "/tsconfig.json"))
        (cW.getPresenceFolder "w2")) ∈
      (cW.compilePresence envClean (fsOf []) (PresenceArg.single "w2") {}).bundlerCalls ∧
    (singleSuccessMsg false "w2" ∈
        (cW.compilePresence envClean (fsOf []) (PresenceArg.single "w2") {}).reports ↔
      rawEmptyOf (envClean.bundler (singleBundlerInput (some none) false
        ((fsOf []).write (cW.getPresenceFolder "w2" ++ "/tsconfig.json"))
        (cW.getPresenceFolder "w2"))).stats = true) :=
  ⟨by decide, by decide,
    c2_success_iff_raw_empty cW envClean (fsOf []) "w2" {} [] (by decide) _ (by decide)⟩

/-! ## C3 -/

/-- Options with an explicitly supplied output directory. -/
def c3Opts : Options := { output := some "/out" }

/-- C3 counterexample: in a batch call with `output: "/out"` supplied and
emit enabled, the bundler for unit `"a"` is configured with the unit's own
folder as `output.path`, not the supplied `"/out"` — the caller-supplied
output directory is ignored in batch mode. -/
theorem c3_counterexample :
    c3Opts.output = some "/out" ∧
    ((cW.compilePresence envClean (fsOf []) (PresenceArg.batch ["a"])
        c3Opts).bundlerCalls.map (fun i => i.output)) =
      [some (some (cW.getPresenceFolder "a"))] ∧
    (cW.getPresenceFolder "a" : String) ≠ "/out" :=
  ⟨rfl, by decide, by decide⟩

/-- C3 amended: with emit enabled, in batch mode every bundler invocation
writes to the unit's own source directory (its `context`), ignoring
`options.output` entirely; in single-unit mode the bundler's `output.path`
is exactly the `output` option as supplied at call time — in particular it
stays unset (bundler default) when the caller supplied none, because the
configuration captured the value before the single branch's defaulting
assignment. -/
theorem c3_output_amended (c : Compiler) (env : Env) (fs : FS) (options : Options)
    (ps : List String) (p : String) (he : options.emit ≠ some false) :
    (∀ input ∈ (c.compilePresence env fs (PresenceArg.batch ps) options).bundlerCalls,
      input.output = some (some input.context)) ∧
    (∀ input ∈ (c.compilePresence env fs (PresenceArg.single p) options).bundlerCalls,
      input.output = some options.output) := by
  have hemit : options.emit.getD true = true := by
    cases he2 : options.emit with
    | none => rfl
    | some b =>
      cases b with
      | false => exact absurd he2 he
      | true => rfl
  constructor
  · intro input hin
    rw [compilePresence_batch_eq, compileBatch_bundlerCalls] at hin
    have hout := batchLoop_output c env (options.emit.getD true)
      (options.transpileOnly.getD false) ps fs input hin
    rw [hemit] at hout
    simpa using hout
  · intro input hin
    rw [compilePresence_single_eq] at hin
    rcases install_result_cases c env
        (fs.write (c.getPresenceFolder p ++ "/tsconfig.json")) p with
      hinst | ⟨hinst, hm, hok⟩
    · cases herr : (env.bundler (singleBundlerInput
          (if options.emit.getD true then some options.output else none)
          (options.transpileOnly.getD false)
          (fs.write (c.getPresenceFolder p ++ "/tsconfig.json"))
          (c.getPresenceFolder p))).error with
      | some m =>
        rw [compileSingle_bundler_fail c env fs p _ _ _ m hinst herr] at hin
        simp only [List.mem_singleton] at hin
        subst hin
        simp [singleBundlerInput, hemit]
      | none =>
        rw [compileSingle_ok_eq c env fs p _ _ _ hinst herr] at hin
        simp only [List.mem_singleton] at hin
        subst hin
        simp [singleBundlerInput, hemit]
    · have hm' : fs.present (c.getPresenceFolder p ++ "/package.json") = true := by
        rw [← write_ts_pkg fs (c.getPresenceFolder p)]; exact hm
      rw [compileSingle_install_fail c env fs p _ _ _ hm' hok] at hin
      simp at hin

theorem c3_output_amended_witness :
    (singleBundlerInput (some (some "/out")) false
        ((fsOf []).write (cW.getPresenceFolder "w3" ++ "/tsconfig.json"))
        (cW.getPresenceFolder "w3")) ∈
      (cW.compilePresence envClean (fsOf []) (PresenceArg.single "w3")
        c3Opts).bundlerCalls ∧
    (singleBundlerInput (some (some "/out")) false
        ((fsOf []).write (cW.getPresenceFolder "w3" ++ "/tsconfig.json"))
        (cW.getPresenceFolder "w3")).output = some c3Opts.output :=
  ⟨by decide,
    (c3_output_amended cW envClean (fsOf []) c3Opts [] "w3" (by decide)).2 _ (by decide)⟩

/-! ## C5 -/

/-- The wrapper filter as the claim words it: a wrapper-kind diagnostic is
excluded when an underlying (non-wrapper) diagnostic for the same fault —
read here as same file, line and column — is present in the list. -/
def claimedWrapperFilter (ds : List Diagnostic) : List Diagnostic :=
  ds.filter fun d =>
    !(d.name == "ModuleBuildError" &&
      ds.any fun u => !(u.name == "ModuleBuildError") && u.file == d.file &&
        u.line == d.line && u.column == d.column)

/-- C5 counterexample: a one-unit batch whose bundler yields exactly one
wrapper-kind diagnostic and no underlying diagnostic.  The per-unit raw
concatenation is `[mbeDiag]`; the claim's filter keeps the wrapper (no
underlying diagnostic for the same fault is present), so the claimed
returned list is `[mbeDiag]`, but the call returns `[]`: the code excludes
wrapper diagnostics unconditionally. -/
theorem c5_counterexample :
    (((cW.compilePresence envWrapperOnly (fsOf [])
        (PresenceArg.batch ["a"]) {}).bundlerCalls.map
      (fun i => (envWrapperOnly.bundler i).stats.getD [])).flatten = [mbeDiag]) ∧
    claimedWrapperFilter [mbeDiag] = [mbeDiag] ∧
    (cW.compilePresence envWrapperOnly (fsOf []) (PresenceArg.batch ["a"]) {}).result =
      Except.ok [] ∧
    ([mbeDiag] : List Diagnostic) ≠ [] :=
  ⟨by decide, by decide, by decide, by decide⟩

/-- C5 amended: for every batch call that returns normally there is exactly
one bundler invocation per unit, in caller-supplied order, and the returned
list is the concatenation of the per-unit diagnostic lists (per-unit
emission order preserved) from which every diagnostic whose kind is the
wrapper kind `"ModuleBuildError"` is excluded unconditionally, whether or
not an underlying diagnostic for the same fault is present. -/
theorem c5_batch_diagnostics (c : Compiler) (env : Env) (fs : FS) (ps : List String)
    (options : Options) (ds : List Diagnostic)
    (h : (c.compilePresence env fs (PresenceArg.batch ps) options).result =
      Except.ok ds) :
    ds = filterModuleBuildErrors
        (((c.compilePresence env fs (PresenceArg.batch ps) options).bundlerCalls.map
          (fun i => (env.bundler i).stats.getD [])).flatten) ∧
    (c.compilePresence env fs (PresenceArg.batch ps) options).bundlerCalls.map
        (fun i => i.context) = ps.map c.getPresenceFolder := by
  rw [compilePresence_batch_eq] at h ⊢
  cases hres : (batchLoop c env (options.emit.getD true)
      (options.transpileOnly.getD false) ps fs).result with
  | error e =>
    simp only [Compiler.compileBatch, hres] at h
    exact absurd h (by simp)
  | ok raw =>
    obtain ⟨h1, h2⟩ := batchLoop_ok_spec c env (options.emit.getD true)
      (options.transpileOnly.getD false) ps fs raw hres
    simp only [Compiler.compileBatch, hres] at h ⊢
    refine ⟨?_, h2⟩
    have hds : ds = filterModuleBuildErrors raw := by
      simp only [Except.ok.injEq] at h
      exact h.symm
    rw [hds, h1]

theorem c5_batch_diagnostics_witness :
    (cW.compilePresence envOneDiag (fsOf []) (PresenceArg.batch ["a", "b"]) {}).result =
      Except.ok [tsDiag, tsDiag] ∧
    [tsDiag, tsDiag] = filterModuleBuildErrors
        (((cW.compilePresence envOneDiag (fsOf [])
            (PresenceArg.batch ["a", "b"]) {}).bundlerCalls.map
          (fun i => (envOneDiag.bundler i).stats.getD [])).flatten) ∧
    (cW.compilePresence envOneDiag (fsOf [])
        (PresenceArg.batch ["a", "b"]) {}).bundlerCalls.map (fun i => i.context) =
      ["a", "b"].map cW.getPresenceFolder :=
  ⟨by decide,
    (c5_batch_diagnostics cW envOneDiag (fsOf []) ["a", "b"] {} [tsDiag, tsDiag]
      (by decide)).1,
    (c5_batch_diagnostics cW envOneDiag (fsOf []) ["a", "b"] {} [tsDiag, tsDiag]
      (by decide)).2⟩

/-! ## C6 -/

/-- C6: every bundler invocation of `compilePresence` (single or batch) has
exactly the primary entry point plus the secondary `iframe` entry point when
`iframe.ts` exists in the unit's directory, and exactly the primary one when
it does not: two entry points iff the secondary file exists, one otherwise.
The existence test is stated against the initial filesystem; the
orchestrator's own writes never touch an `iframe.ts` path. -/
theorem c6_entry_points (c : Compiler) (env : Env) (fs : FS) (arg : PresenceArg)
    (options : Options) :
    ∀ input ∈ (c.compilePresence env fs arg options).bundlerCalls,
      input.entries =
        ("presence", "./presence.ts") ::
          (if fs.present (input.context ++ "/iframe.ts") then
            [("iframe", "./iframe.ts")] else []) ∧
      input.entries.length =
        (if fs.present (input.context ++ "/iframe.ts") then 2 else 1) := by
  intro input hin
  have hent : input.entries = entriesFor fs input.context := by
    cases arg with
    | batch ps =>
      rw [compilePresence_batch_eq, compileBatch_bundlerCalls] at hin
      exact batchLoop_entries c env (options.emit.getD true)
        (options.transpileOnly.getD false) ps fs input hin
    | single p =>
      rw [compilePresence_single_eq] at hin
      rcases install_result_cases c env
          (fs.write (c.getPresenceFolder p ++ "/tsconfig.json")) p with
        hinst | ⟨hinst, hm, hok⟩
      · cases herr : (env.bundler (singleBundlerInput
            (if options.emit.getD true then some options.output else none)
            (options.transpileOnly.getD false)
            (fs.write (c.getPresenceFolder p ++ "/tsconfig.json"))
            (c.getPresenceFolder p))).error with
        | some m =>
          rw [compileSingle_bundler_fail c env fs p _ _ _ m hinst herr] at hin
          simp only [List.mem_singleton] at hin
          subst hin
          simp only [singleBundlerInput]
          exact entriesFor_write_tsconfig fs _ _
        | none =>
          rw [compileSingle_ok_eq c env fs p _ _ _ hinst herr] at hin
          simp only [List.mem_singleton] at hin
          subst hin
          simp only [singleBundlerInput]
          exact entriesFor_write_tsconfig fs _ _
      · have hm' : fs.present (c.getPresenceFolder p ++ "/package.json") = true := by
          rw [← write_ts_pkg fs (c.getPresenceFolder p)]; exact hm
        rw [compileSingle_install_fail c env fs p _ _ _ hm' hok] at hin
        simp at hin
  rw [hent]
  unfold entriesFor
  cases hifr : fs.present (input.context ++ "/iframe.ts") <;> simp [hifr]

theorem c6_entry_points_witness :
    (singleBundlerInput (some none) false
        ((fsOf [cW.getPresenceFolder "a" ++ "/iframe.ts"]).write
          (cW.getPresenceFolder "a" ++ "/tsconfig.json"))
        (cW.getPresenceFolder "a")) ∈
      (cW.compilePresence envClean (fsOf [cW.getPresenceFolder "a" ++ "/iframe.ts"])
        (PresenceArg.single "a") {}).bundlerCalls ∧
    (singleBundlerInput (some none) false
        ((fsOf [cW.getPresenceFolder "a" ++ "/iframe.ts"]).write
          (cW.getPresenceFolder "a" ++ "/tsconfig.json"))
        (cW.getPresenceFolder "a")).entries.length = 2 :=
  ⟨by decide,
    ((c6_entry_points cW envClean (fsOf [cW.getPresenceFolder "a" ++ "/iframe.ts"])
      (PresenceArg.single "a") {} _ (by decide)).2).trans (by decide)⟩

/-! ## C4 -/

/-- C4: if in a batch call some recorded bundler invocation completed with a
fatal invocation error, then the units split as `pre ++ p' :: post` where
`p'` is the failing unit: the error is thrown to the caller, exactly the
units `pre ++ [p']` received a bundler invocation (in order), only their
folders received installer invocations, the filesystem outside their
ephemeral configs — in particular everything belonging to the units of
`post` — is untouched (no config write), and no aggregate success message is
reported. -/
theorem c4_batch_abort (c : Compiler) (env : Env) (fs : FS) (ps : List String)
    (options : Options)
    (h : ∃ input ∈ (c.compilePresence env fs (PresenceArg.batch ps) options).bundlerCalls,
      (env.bundler input).error ≠ none) :
    ∃ m pre p' post,
      ps = pre ++ p' :: post ∧
      (c.compilePresence env fs (PresenceArg.batch ps) options).result =
        Except.error (CompileError.bundlerError m) ∧
      (c.compilePresence env fs (PresenceArg.batch ps) options).bundlerCalls.map
        (fun i => i.context) = (pre ++ [p']).map c.getPresenceFolder ∧
      (∀ f ∈ (c.compilePresence env fs (PresenceArg.batch ps) options).installerCalls,
        ∃ q ∈ pre ++ [p'], f = c.getPresenceFolder q) ∧
      (∀ path, (∀ q ∈ pre ++ [p'], path ≠ c.getPresenceFolder q ++ "/tsconfig.json") →
        (c.compilePresence env fs (PresenceArg.batch ps) options).fs.present path =
          fs.present path) ∧
      (∀ tO : Bool, batchSuccessMsg tO ps.length ∉
        (c.compilePresence env fs (PresenceArg.batch ps) options).reports) := by
  rw [compilePresence_batch_eq] at h ⊢
  rw [compileBatch_bundlerCalls] at h
  obtain ⟨m, pre, p', post, hsplit, hres, hmap, hinst, hframe⟩ :=
    batchLoop_error_spec c env (options.emit.getD true)
      (options.transpileOnly.getD false) ps fs h
  refine ⟨m, pre, p', post, hsplit, ?_, ?_, ?_, ?_, ?_⟩
  · simp only [Compiler.compileBatch, hres]
  · simp only [Compiler.compileBatch, hres]
    exact hmap
  · simp only [Compiler.compileBatch, hres]
    exact hinst
  · simp only [Compiler.compileBatch, hres]
    exact hframe
  · intro tO hmem
    simp only [Compiler.compileBatch, hres] at hmem
    rcases List.mem_cons.mp hmem with hmem | hmem
    · exact batchSuccessMsg_ne_header tO ps.length ps.length hmem
    · obtain ⟨f, hf⟩ := batchLoop_reports_shape c env (options.emit.getD true)
        (options.transpileOnly.getD false) ps fs _ hmem
      exact batchSuccessMsg_ne_installing tO ps.length f hf

theorem c4_batch_abort_witness :
    (∃ input ∈ (cW.compilePresence envFailOnB (fsOf [])
        (PresenceArg.batch ["a", "b", "c"]) {}).bundlerCalls,
      (envFailOnB.bundler input).error ≠ none) ∧
    (∃ m pre p' post,
      ["a", "b", "c"] = pre ++ p' :: post ∧
      (cW.compilePresence envFailOnB (fsOf [])
          (PresenceArg.batch ["a", "b", "c"]) {}).result =
        Except.error (CompileError.bundlerError m) ∧
      (cW.compilePresence envFailOnB (fsOf [])
          (PresenceArg.batch ["a", "b", "c"]) {}).bundlerCalls.map
        (fun i => i.context) = (pre ++ [p']).map cW.getPresenceFolder ∧
      (∀ f ∈ (cW.compilePresence envFailOnB (fsOf [])
          (PresenceArg.batch ["a", "b", "c"]) {}).installerCalls,
        ∃ q ∈ pre ++ [p'], f = cW.getPresenceFolder q) ∧
      (∀ path, (∀ q ∈ pre ++ [p'],
          path ≠ cW.getPresenceFolder q ++ "/tsconfig.json") →
        (cW.compilePresence envFailOnB (fsOf [])
            (PresenceArg.batch ["a", "b", "c"]) {}).fs.present path =
          (fsOf []).present path) ∧
      (∀ tO : Bool, batchSuccessMsg tO (["a", "b", "c"] : List String).length ∉
        (cW.compilePresence envFailOnB (fsOf [])
          (PresenceArg.batch ["a", "b", "c"]) {}).reports)) :=
  ⟨by decide,
    c4_batch_abort cW envFailOnB (fsOf []) ["a", "b", "c"] {} (by decide)⟩
